import Mathlib

/-!
Verification of the sql-agent repository: a shallow embedding of the
conversation-history tracker, prompt assembler, schema formatter, RAG schema
store and query orchestrator, together with theorems settling the spec claims.

Source files embedded:
  - src/agent/sql_agent.py          (SQLAgent)
  - src/agent/sql_agent_prompts.py  (create_sql_prompt and the fixed prompt texts)
  - src/rag/rag_manager.py          (SchemaRAGManager)

Modelling conventions:
  - Python strings are Lean `String`s; `len` counts characters, as in Python.
  - Python list slicing `xs[-n:]` is `pySliceLast n xs`; note that in Python
    `xs[-0:]` is the whole list, which the model reproduces.
  - Python truthiness of optional strings/lists is modelled explicitly
    (absent, empty string and empty list are falsy).
  - The ChromaDB collection is an association list of entries keyed by `id`;
    its `upsert`/`get`/`delete`/`count` contract follows spec section 6.
    Similarity ranking is an abstract parameter (assumed to permute the
    stored entries); the underlying `query` rejects a request for more
    results than the collection holds, which is the behaviour the source
    defends against by clamping with `min`.
  - `json.dumps`/`json.loads` on the `schema_json` metadata field are
    modelled by storing the schema value itself: serialisation by the json
    library is injective on JSON values, so the string is represented by the
    value it encodes.
-/

set_option autoImplicit false

namespace SqlAgent

/-- One conversation turn as stored by `SQLAgent.conversation_history`:
a dict `{"user": ..., "assistant": ...}`. -/
structure Turn where
  user : String
  assistant : String
  deriving DecidableEq, Repr

/-- The configuration fields of `SQLAgent.__init__` that the embedded
operations read. -/
structure AgentConfig where
  top_k_schemas : Nat
  enable_conversation_history : Bool
  max_history_length : Nat
  history_in_prompt : Nat
  summarize_old_turns : Bool
  deriving DecidableEq, Repr

/-- Python list slicing `xs[-n:]` for a natural `n`:
the last `n` elements, except that `xs[-0:]` is the whole list. -/
def pySliceLast {α : Type} (n : Nat) (xs : List α) : List α :=
  if n = 0 then xs else xs.drop (xs.length - n)

/-- Python truthiness of an optional string (`None` and `""` are falsy). -/
def pyTruthyStr : Option String → Bool
  | none => false
  | some s => !(s == "")

/-- The default character set stripped by Python `str.strip()`. -/
def isPythonSpace (c : Char) : Bool :=
  c == ' ' || c == '\t' || c == '\n' || c == '\r' || c == '\x0b' || c == '\x0c'

/-- Python `s.strip()`: drop leading and trailing whitespace. -/
def pyStrip (s : String) : String :=
  String.mk (((s.data.dropWhile isPythonSpace).reverse.dropWhile isPythonSpace).reverse)

/-- `SQLAgent._add_to_history` (src/agent/sql_agent.py lines 168-177):
append the turn, then keep only the last `max_history_length` turns when the
length exceeds it.  The trim is the Python slice
`self.conversation_history[-self.max_history_length:]`. -/
def _add_to_history (cfg : AgentConfig) (history : List Turn)
    (user_input assistant_response : String) : List Turn :=
  let h := history ++ [⟨user_input, assistant_response⟩]
  if h.length > cfg.max_history_length then pySliceLast cfg.max_history_length h else h

/-- `SQLAgent.get_history` (lines 183-185): returns a copy of the stored
history; the copy of a list value is the value itself. -/
def get_history (history : List Turn) : List Turn :=
  history

/-- First definition of `SQLAgent._prepare_history_for_prompt`
(src/agent/sql_agent.py lines 92-128), shadowed in Python by the second. -/
def _prepare_history_for_prompt_v1 (cfg : AgentConfig) (history : List Turn) : List Turn :=
  if history.isEmpty then []
  else
    let recent_turns := pySliceLast cfg.history_in_prompt history
    if !cfg.summarize_old_turns then recent_turns
    else
      recent_turns.map (fun turn =>
        if turn.assistant.length > 200 then
          { user := turn.user
            assistant := "[Generated SQL query: " ++ turn.assistant.take 100 ++ "...]" }
        else turn)

/-- Second definition of `SQLAgent._prepare_history_for_prompt`
(src/agent/sql_agent.py lines 130-166), the one Python actually binds. -/
def _prepare_history_for_prompt_v2 (cfg : AgentConfig) (history : List Turn) : List Turn :=
  if history.isEmpty then []
  else
    let recent_turns := pySliceLast cfg.history_in_prompt history
    if !cfg.summarize_old_turns then recent_turns
    else
      recent_turns.map (fun turn =>
        if turn.assistant.length > 200 then
          { user := turn.user
            assistant := "[Generated SQL query: " ++ turn.assistant.take 100 ++ "...]" }
        else turn)

/-- The effective `_prepare_history_for_prompt`: the second definition wins
(later `def` of the same name shadows the earlier one in a Python class body). -/
def _prepare_history_for_prompt (cfg : AgentConfig) (history : List Turn) : List Turn :=
  _prepare_history_for_prompt_v2 cfg history

/-! ## Prompt assembly (src/agent/sql_agent_prompts.py) -/

/-- `SYSTEM_PROMPT` (src/agent/sql_agent_prompts.py lines 6-14). -/
def SYSTEM_PROMPT : String :=
  "You are an expert SQL developer. Generate SQL queries based on business logic and database schemas provided.\n\nAlways follow these rules:\n- Generate valid SQL queries that fulfill the business logic\n- Use proper SQL syntax and best practices\n- Include appropriate SQL logical constructs (JOINs, WHERE clauses, GROUP BY, etc.) as needed\n- Be explicit about the type of join\n- Do not include markdown code blocks or formatting\n- Follow the output format instructions exactly"

/-- `TASK_INSTRUCTIONS` (src/agent/sql_agent_prompts.py lines 19-23). -/
def TASK_INSTRUCTIONS : String :=
  "## Instructions:\n1. Analyze the database schema provided\n2. Understand the business logic requirement\n3. Generate the appropriate SQL query\n4. Ensure the query is optimized and follows best practices"

/-- `EXPLANATION_INSTRUCTIONS` (src/agent/sql_agent_prompts.py lines 27-31). -/
def EXPLANATION_INSTRUCTIONS : String :=
  "\nAfter the SQL query, provide a brief explanation of:\n1. What tables are being used\n2. What the query does\n3. Any important joins or conditions"

/-- Output-format directive used when `explain` is false. -/
def OUTPUT_FORMAT_NO_EXPLAIN : String :=
  "Return ONLY the SQL query. Do not include any explanation, description, or additional text."

/-- Output-format directive used when `explain` is true. -/
def OUTPUT_FORMAT_EXPLAIN : String :=
  "Return the SQL query followed by the explanation."

/-- The `history_context` block built inside `create_sql_prompt`
(src/agent/sql_agent_prompts.py lines 64-71).  `None` and the empty list are
both falsy, yielding the empty block; otherwise each turn is rendered as a
numbered User/Assistant pair via `enumerate(conversation_history, 1)`. -/
def render_history_context (conversation_history : Option (List Turn)) : String :=
  match conversation_history with
  | none => ""
  | some turns =>
    if turns.isEmpty then ""
    else
      "\n## Previous Conversation:\n"
        ++ String.join ((turns.enumFrom 1).map (fun p =>
             "\nTurn " ++ toString p.1 ++ ":\nUser: " ++ p.2.user
               ++ "\nAssistant: " ++ p.2.assistant ++ "\n"))
        ++ "\n## Current Request:\n"

/-- `create_sql_prompt` (src/agent/sql_agent_prompts.py lines 34-90): the
single combined prompt, an f-string concatenation of the fixed blocks around
the caller-supplied schema context, optional history and request. -/
def create_sql_prompt (business_logic schema_context : String) (explain : Bool)
    (conversation_history : Option (List Turn)) : String :=
  let explanation_section := if explain then EXPLANATION_INSTRUCTIONS else ""
  let output_format := if explain then OUTPUT_FORMAT_EXPLAIN else OUTPUT_FORMAT_NO_EXPLAIN
  let history_context := render_history_context conversation_history
  SYSTEM_PROMPT
    ++ "\n\n## Database Schema (Relevant Tables Only):\n"
    ++ schema_context
    ++ "\n"
    ++ history_context
    ++ "\n## Business Logic:\n"
    ++ business_logic
    ++ "\n\n"
    ++ TASK_INSTRUCTIONS
    ++ "\n"
    ++ explanation_section
    ++ "\n\n## Output Format:\n"
    ++ output_format
    ++ "\n\nSQL Query:"

/-! ## Schema documents (the JSON shapes the source branches on) -/

/-- A `constraints` value: the source accepts a single string or a list of
strings (src/agent/sql_agent.py lines 218-222). -/
inductive ConstraintsVal where
  | str (s : String)
  | list (items : List String)
  deriving DecidableEq, Repr

/-- Python truthiness of an optional constraints value
(`None`, `""` and `[]` are falsy). -/
def pyTruthyCon : Option ConstraintsVal → Bool
  | none => false
  | some (.str s) => !(s == "")
  | some (.list l) => !l.isEmpty

/-- Python `repr` of a list of plain strings (no quotes or escapes inside),
as produced by `f"...{constraints}..."` when `constraints` is a list. -/
def pyReprStrList (l : List String) : String :=
  "[" ++ String.intercalate ", " (l.map (fun s => "\x27" ++ s ++ "\x27")) ++ "]"

/-- What the f-string `f"{constraints}"` renders a constraints value as:
a string renders as itself, a list as its Python repr. -/
def ConstraintsVal.pyStr : ConstraintsVal → String
  | .str s => s
  | .list l => pyReprStrList l

/-- One column-info dict `{name, type, constraints, description}`; every key
may be absent.  The `name` key is only consulted in the list form. -/
structure ColumnInfo where
  name : Option String
  type : Option String
  constraints : Option ConstraintsVal
  description : Option String
  deriving DecidableEq, Repr

/-- The `columns` field: a dict mapping column name to info, or a list of
info dicts (both shapes are handled by the source). -/
inductive ColumnsVal where
  | dict (entries : List (String × ColumnInfo))
  | list (entries : List ColumnInfo)
  deriving DecidableEq, Repr

/-- Python truthiness of the `columns` value obtained by
`schema.get("columns", {})`. -/
def pyTruthyColumns : Option ColumnsVal → Bool
  | none => false
  | some (.dict entries) => !entries.isEmpty
  | some (.list entries) => !entries.isEmpty

/-- A structured relationship record `{type, related_table, foreign_key,
description}`; every key may be absent. -/
structure RelObj where
  type : Option String
  related_table : Option String
  foreign_key : Option String
  description : Option String
  deriving DecidableEq, Repr

/-- A `relationships` item: a free-text string or a structured record. -/
inductive RelVal where
  | str (s : String)
  | dict (r : RelObj)
  deriving DecidableEq, Repr

/-- Python `str()` of a relationship record dict, with keys in the insertion
order of the schema files (assuming plain string values). -/
def pyReprRelObj (r : RelObj) : String :=
  let fields :=
    (match r.type with | some v => [("type", v)] | none => [])
      ++ (match r.related_table with | some v => [("related_table", v)] | none => [])
      ++ (match r.foreign_key with | some v => [("foreign_key", v)] | none => [])
      ++ (match r.description with | some v => [("description", v)] | none => [])
  "\x7b"
    ++ String.intercalate ", " (fields.map (fun p =>
         "\x27" ++ p.1 ++ "\x27: \x27" ++ p.2 ++ "\x27"))
    ++ "\x7d"

/-- A schema document: the JSON object shapes that the source reads.
Each field may be absent, as in a Python dict. -/
structure Schema where
  table_name : Option String
  description : Option String
  business_context : Option String
  columns : Option ColumnsVal
  relationships : Option (List RelVal)
  deriving DecidableEq, Repr

/-- The truthy table name: `schema.get("table_name")` followed by the
falsiness check `if not table_name` (absent and `""` both fail). -/
def Schema.truthy_table_name (s : Schema) : Option String :=
  match s.table_name with
  | some n => if n = "" then none else some n
  | none => none

/-! ## Schema formatting for the prompt (`SQLAgent._format_schemas`) -/

/-- The column line of the dict branch of `_format_schemas`
(src/agent/sql_agent.py lines 203-210).  Note the constraints value is
interpolated directly: a list is NOT joined here. -/
def format_dict_col_line (col_name : String) (col_info : ColumnInfo) : String :=
  let base := "  - " ++ col_name ++ " (" ++ col_info.type.getD "UNKNOWN" ++ ")"
  let withCon :=
    if pyTruthyCon col_info.constraints then
      base ++ " [" ++ (col_info.constraints.getD (.str "")).pyStr ++ "]"
    else base
  if pyTruthyStr col_info.description then
    withCon ++ " - " ++ col_info.description.getD ""
  else withCon

/-- The column line of the list branch of `_format_schemas`
(src/agent/sql_agent.py lines 213-225).  Here a list of constraints is
joined with `", "` before interpolation. -/
def format_list_col_line (col_info : ColumnInfo) : String :=
  let col_name := col_info.name.getD "UNKNOWN"
  let col_type := col_info.type.getD "UNKNOWN"
  let base := "  - " ++ col_name ++ " (" ++ col_type ++ ")"
  let withCon :=
    if pyTruthyCon col_info.constraints then
      let conStr :=
        match col_info.constraints.getD (.str "") with
        | .list items => String.intercalate ", " items
        | .str s => s
      base ++ " [" ++ conStr ++ "]"
    else base
  if pyTruthyStr col_info.description then
    withCon ++ " - " ++ col_info.description.getD ""
  else withCon

/-- A relationship line of `_format_schemas` (src/agent/sql_agent.py lines
230-234): a string is printed as-is, a dict prints its `description` value
or, when that key is absent, `str(rel)`. -/
def format_rel_line : RelVal → String
  | .str r => "  - " ++ r
  | .dict r => "  - " ++ (match r.description with | some d => d | none => pyReprRelObj r)

/-- The `table_info` line list that `_format_schemas` builds for one schema
(src/agent/sql_agent.py lines 191-236). -/
def format_one_schema_lines (schema : Schema) : List String :=
  let l1 := ["\n### Table: " ++ schema.table_name.getD ""]
  let l2 :=
    if pyTruthyStr schema.description then
      l1 ++ ["Description: " ++ schema.description.getD ""]
    else l1
  let l3 :=
    if pyTruthyColumns schema.columns then
      match schema.columns with
      | some (.dict entries) =>
        l2 ++ ["\nColumns:"] ++ entries.map (fun p => format_dict_col_line p.1 p.2)
      | some (.list entries) =>
        l2 ++ ["\nColumns:"] ++ entries.map format_list_col_line
      | none => l2
    else l2
  match schema.relationships with
  | some rels =>
    if rels.isEmpty then l3
    else l3 ++ ["\nRelationships:"] ++ rels.map format_rel_line
  | none => l3

/-- `SQLAgent._format_schemas` (src/agent/sql_agent.py lines 187-238):
each schema's lines are joined with newlines, then the per-table blocks are
joined with newlines. -/
def _format_schemas (schemas : List Schema) : String :=
  String.intercalate "\n"
    (schemas.map (fun schema => String.intercalate "\n" (format_one_schema_lines schema)))

/-! ## Searchable text (`SchemaRAGManager._create_searchable_text`) -/

/-- `SchemaRAGManager._create_searchable_text` (src/rag/rag_manager.py lines
163-202).  Only called with a truthy `table_name`.  Unlike
`_format_schemas`, the `columns` header is emitted whenever the key is
present (even for an empty dict), and a relationship dict falls back to its
`type` value, not to `str(rel)`. -/
def _create_searchable_text (schema : Schema) : String :=
  let p1 := ["Table: " ++ schema.table_name.getD ""]
  let p2 :=
    if pyTruthyStr schema.description then
      p1 ++ ["Description: " ++ schema.description.getD ""]
    else p1
  let p3 :=
    if pyTruthyStr schema.business_context then
      p2 ++ ["Business Context: " ++ schema.business_context.getD ""]
    else p2
  let p4 :=
    match schema.columns with
    | some (.dict entries) =>
      p3 ++ ["\nColumns:"] ++ entries.map (fun p =>
        "  - " ++ p.1 ++ ": " ++ p.2.type.getD "" ++ " " ++ p.2.description.getD "")
    | some (.list entries) =>
      p3 ++ ["\nColumns:"] ++ entries.map (fun c =>
        "  - " ++ c.name.getD "" ++ ": " ++ c.type.getD "" ++ " " ++ c.description.getD "")
    | none => p3
  let p5 :=
    match schema.relationships with
    | some rels =>
      if rels.isEmpty then p4
      else p4 ++ ["\nRelationships:"] ++ rels.map (fun rel =>
        match rel with
        | .str s => "  - " ++ s
        | .dict r => "  - " ++ (match r.description with
                                | some d => d
                                | none => r.type.getD ""))
    | none => p4
  String.intercalate "\n" p5

/-! ## Query orchestration (`SQLAgent.generate_query`) -/

/-- The observable outcome of one `generate_query` call: the returned string,
the post-call stored history, whether the generation capability was invoked,
and the prompt passed to it (`none` when no generation happened). -/
structure GenerateResult where
  response : String
  conversation_history : List Turn
  llm_called : Bool
  prompt : Option String
  deriving DecidableEq, Repr

/-- `SQLAgent.generate_query` (src/agent/sql_agent.py lines 43-90), with the
schemas returned by `rag_manager.retrieve_relevant_schemas` and the
generation capability `self.llm.generate(prompt, temperature=0.0)` passed as
parameters. -/
def generate_query (cfg : AgentConfig) (llm_generate : String → String)
    (relevant_schemas : List Schema) (history : List Turn)
    (business_logic : String) (explain : Bool) : GenerateResult :=
  if relevant_schemas.isEmpty then
    { response := "Error: No relevant tables found for this query."
      conversation_history := history
      llm_called := false
      prompt := none }
  else
    let schema_context := _format_schemas relevant_schemas
    let history_for_prompt : Option (List Turn) :=
      if cfg.enable_conversation_history && !history.isEmpty then
        some (_prepare_history_for_prompt cfg history)
      else none
    let prompt := create_sql_prompt business_logic schema_context explain history_for_prompt
    let response := llm_generate prompt
    let new_history :=
      if cfg.enable_conversation_history then
        _add_to_history cfg history business_logic (pyStrip response)
      else history
    { response := pyStrip response
      conversation_history := new_history
      llm_called := true
      prompt := some prompt }

/-! ## The schema store (`SchemaRAGManager`, src/rag/rag_manager.py)

The ChromaDB collection is modelled as a list of entries keyed by `id`.
Each entry carries the searchable document text and the flattened metadata
written by `add_schema`; the `schema_json` metadata string is represented by
the schema value it encodes (json serialisation is injective). -/

/-- One ChromaDB record as written by `SchemaRAGManager.add_schema`
(src/rag/rag_manager.py lines 146-161). -/
structure CollectionEntry where
  id : String
  document : String
  table_name : String
  description : String
  business_context : String
  schema_json : Schema
  file_hash : String
  deriving DecidableEq, Repr

/-- The ChromaDB collection state. -/
abbrev Collection := List CollectionEntry

/-- ChromaDB `upsert` with a single id: update the existing record in place,
or append a new one (ids stay unique). -/
def Collection.upsert (st : Collection) (e : CollectionEntry) : Collection :=
  if st.any (fun x => x.id == e.id) then
    st.map (fun x => if x.id == e.id then e else x)
  else st ++ [e]

/-- `SchemaRAGManager.get_all_table_names` (src/rag/rag_manager.py lines
236-239): the ids of all stored records. -/
def get_all_table_names (st : Collection) : List String :=
  st.map (fun e => e.id)

/-- `SchemaRAGManager.add_schema` (src/rag/rag_manager.py lines 131-161):
raises `ValueError` on a falsy `table_name`, otherwise upserts the record
with the searchable text and flattened metadata.  `file_hash or ""` maps an
absent hash to the empty string. -/
def add_schema (st : Collection) (schema : Schema) (file_hash : Option String) :
    Except String Collection :=
  match schema.truthy_table_name with
  | none => .error "Schema must contain \x27table_name\x27 field"
  | some table_name =>
    let searchable_text := _create_searchable_text schema
    .ok (st.upsert
      { id := table_name
        document := searchable_text
        table_name := table_name
        description := schema.description.getD ""
        business_context := schema.business_context.getD ""
        schema_json := schema
        file_hash := (file_hash.getD "") })

/-- `SchemaRAGManager._get_stored_metadata(name).get("file_hash", "")`
(src/rag/rag_manager.py lines 47-55 and 102): the stored hash, or `""` when
the id is absent. -/
def stored_file_hash (st : Collection) (table_name : String) : String :=
  match st.find? (fun e => e.id == table_name) with
  | some e => e.file_hash
  | none => ""

/-- `SchemaRAGManager.get_schema_by_name` (src/rag/rag_manager.py lines
241-252): exact id lookup; the full schema is recovered from the
`schema_json` metadata string; absent id gives `None`, never an error. -/
def get_schema_by_name (st : Collection) (table_name : String) : Option Schema :=
  match st.find? (fun e => e.id == table_name) with
  | some e => some e.schema_json
  | none => none

/-! ### Directory sync (`load_schemas_from_directory`) -/

/-- One source item supplied to the sync operation: a JSON file with its
name, the hash of its raw bytes and its parsed content. -/
structure SourceFile where
  name : String
  file_hash : String
  schema : Schema
  deriving DecidableEq, Repr

/-- The counts returned by `load_schemas_from_directory`. -/
structure SyncCounts where
  new : Nat
  updated : Nat
  skipped : Nat
  errors : Nat
  deriving DecidableEq, Repr

/-- The body of the per-file loop of `load_schemas_from_directory`
(src/rag/rag_manager.py lines 81-121).  `existing_tables` is the snapshot of
stored ids taken once before the loop (line 77). -/
def load_step (existing_tables : List String) (force_reload : Bool)
    (acc : SyncCounts × Collection) (file : SourceFile) : SyncCounts × Collection :=
  let (counts, st) := acc
  match file.schema.truthy_table_name with
  | none => ({ counts with errors := counts.errors + 1 }, st)
  | some table_name =>
    let is_new := !(existing_tables.contains table_name)
    if !force_reload && !is_new && stored_file_hash st table_name == file.file_hash then
      ({ counts with skipped := counts.skipped + 1 }, st)
    else
      match add_schema st file.schema (some file.file_hash) with
      | .error _ => ({ counts with errors := counts.errors + 1 }, st)
      | .ok st2 =>
        if is_new then ({ counts with new := counts.new + 1 }, st2)
        else ({ counts with updated := counts.updated + 1 }, st2)

/-- `SchemaRAGManager.load_schemas_from_directory` (src/rag/rag_manager.py
lines 57-129).  The glob result is the `json_files` parameter; an empty glob
raises `ValueError` (the directory-existence check concerns the filesystem
collaborator and is outside the model). -/
def load_schemas_from_directory (st : Collection) (force_reload : Bool)
    (json_files : List SourceFile) : Except String (SyncCounts × Collection) :=
  if json_files.isEmpty then
    .error "No JSON files found"
  else
    let existing_tables := get_all_table_names st
    .ok (json_files.foldl (load_step existing_tables force_reload) (⟨0, 0, 0, 0⟩, st))

/-! ### Retrieval (`retrieve_relevant_schemas`) -/

/-- The vector-store collaborator's `query(text, n_results)` applied to a
similarity ranking of the stored entries: it returns the first `n_results`
ranked entries and rejects a request for more results than the collection
holds (the behaviour the source clamps against). -/
def chroma_query (ranked : List CollectionEntry) (n_results : Nat) :
    Except String (List CollectionEntry) :=
  if ranked.length < n_results then
    .error "Number of requested results is greater than number of elements in index"
  else .ok (ranked.take n_results)

/-- `SchemaRAGManager.retrieve_relevant_schemas` (src/rag/rag_manager.py
lines 204-234): query the collection with `n_results = min(top_k, count())`,
then reconstruct each schema from its `schema_json` metadata.  `rank` is the
collaborator's similarity ranking, an abstract permutation of the store. -/
def retrieve_relevant_schemas (rank : String → Collection → List CollectionEntry)
    (st : Collection) (query_text : String) (top_k : Nat) :
    Except String (List Schema) :=
  match chroma_query (rank query_text st) (min top_k st.length) with
  | .error e => .error e
  | .ok res => .ok (res.map (fun e => e.schema_json))

/-! ### Pruning (`remove_deleted_schemas`) -/

/-- `SchemaRAGManager.remove_deleted_schemas` (src/rag/rag_manager.py lines
259-284): delete every stored id that has no JSON file stem, returning the
new state and the size of the removed id set. -/
def remove_deleted_schemas (st : Collection) (json_file_stems : List String) :
    Collection × Nat :=
  let stored_tables := get_all_table_names st
  let to_remove := (stored_tables.filter (fun t => !(json_file_stems.contains t))).dedup
  (st.filter (fun e => !(to_remove.contains e.id)), to_remove.length)

/-! ## Helper definitions used by the verification statements -/

/-- Substring test over character lists (used to state prompt-containment
properties). -/
def charsContain : List Char → List Char → Bool
  | [], pat => pat.isEmpty
  | c :: t, pat => List.isPrefixOf pat (c :: t) || charsContain t pat

/-- `strContains hay pat` is true when `pat` occurs contiguously in `hay`. -/
def strContains (hay pat : String) : Bool :=
  charsContain hay.data pat.data

/-- Replaying a whole sequence of conversation turns through
`_add_to_history`, starting from the empty history. -/
def run_appends (cfg : AgentConfig) (turns : List Turn) : List Turn :=
  turns.foldl (fun h t => _add_to_history cfg h t.user t.assistant) []

/-- The four outcomes `load_schemas_from_directory` counts. -/
inductive SyncClass where
  | isNew
  | isUpdated
  | isSkipped
  | isError
  deriving DecidableEq, Repr

/-- The classification of one source file by the sync loop, relative to the
identifier snapshot `existing` and the hashes stored in `st0`:
error on a falsy `table_name`; new when the identifier is outside the
snapshot; skipped when not forced and the stored hash matches; updated
otherwise. -/
def classOf (existing : List String) (st0 : Collection) (force_reload : Bool)
    (f : SourceFile) : SyncClass :=
  match f.schema.truthy_table_name with
  | none => .isError
  | some n =>
    if !(existing.contains n) then .isNew
    else if !force_reload && stored_file_hash st0 n == f.file_hash then .isSkipped
    else .isUpdated

/-- The counts reported by a second, unforced sync of the same files over
the store produced by a first sync from the empty store (`none` if either
sync raises). -/
def second_sync_counts (files : List SourceFile) : Option SyncCounts :=
  match load_schemas_from_directory ([] : Collection) false files with
  | .error _ => none
  | .ok (_, st1) =>
    match load_schemas_from_directory st1 false files with
    | .error _ => none
    | .ok (c2, _) => some c2

/-! ### Concrete inputs for witnesses and counterexamples -/

/-- A 250-character response (over the 200-character summarization
threshold). -/
def longResponse : String :=
  String.mk (List.replicate 250 'a')

/-- Twelve distinct conversation turns. -/
def twelveTurns : List Turn :=
  (List.range 12).map (fun i => ⟨"q" ++ toString i, "r" ++ toString i⟩)

/-- A schema file for table `A`. -/
def fileTableA : SourceFile :=
  { name := "A.json", file_hash := "hashA"
    schema := { table_name := some "A", description := some "table A"
                business_context := none, columns := none, relationships := none } }

/-- A schema file for table `B`. -/
def fileTableB : SourceFile :=
  { name := "B.json", file_hash := "hashB"
    schema := { table_name := some "B", description := some "table B"
                business_context := none, columns := none, relationships := none } }

/-- A schema file for table `C`. -/
def fileTableC : SourceFile :=
  { name := "C.json", file_hash := "hashC"
    schema := { table_name := some "C", description := some "table C"
                business_context := none, columns := none, relationships := none } }

/-- The three-table source set `{A, B, C}`. -/
def abcFiles : List SourceFile :=
  [fileTableA, fileTableB, fileTableC]

/-- The store produced by syncing `{A, B, C}` into an empty store. -/
def abcStore : Collection :=
  ((load_schemas_from_directory ([] : Collection) false abcFiles).toOption.map Prod.snd).getD []

/-- Two source files that carry the same `table_name` but different
content hashes. -/
def dupFileOne : SourceFile :=
  { name := "a.json", file_hash := "h1"
    schema := { table_name := some "t", description := none
                business_context := none, columns := none, relationships := none } }

/-- Second file for the duplicated table name, with a different hash. -/
def dupFileTwo : SourceFile :=
  { name := "b.json", file_hash := "h2"
    schema := { table_name := some "t", description := none
                business_context := none, columns := none, relationships := none } }

/-- The `customers` document of the end-to-end scenario. -/
def custSchema : Schema :=
  { table_name := some "customers"
    description := none
    business_context := none
    columns := some (.dict [("id", ⟨none, some "INT", none, none⟩),
                            ("active", ⟨none, some "BOOLEAN", none, none⟩)])
    relationships := none }

/-- A schema using dict-form columns whose single column carries a
list-valued `constraints`. -/
def conDictSchema : Schema :=
  { table_name := some "t"
    description := none
    business_context := none
    columns := some (.dict [("c", ⟨none, some "TEXT", some (.list ["not null", "unique"]), none⟩)])
    relationships := none }

/-- The same logical column in list form. -/
def conListSchema : Schema :=
  { table_name := some "t"
    description := none
    business_context := none
    columns := some (.list [⟨some "c", some "TEXT", some (.list ["not null", "unique"]), none⟩])
    relationships := none }

/-- A schema exercising the fields that never reach the searchable text
(constraints, relationships, business context). -/
def richSchema : Schema :=
  { table_name := some "orders"
    description := some "customer orders"
    business_context := some "one row per order"
    columns := some (.dict [("id", ⟨none, some "INT", some (.str "PRIMARY KEY"), some "order id"⟩)])
    relationships := some [.dict ⟨some "many_to_one", some "customers", some "customer_id",
                                  some "each order belongs to a customer"⟩] }

/-- The store effect of one non-skipped, non-error iteration of the sync
loop: the upsert that `add_schema` performs for the file (identity on the
store when the file has no truthy table name). -/
def upsertEntry (st : Collection) (f : SourceFile) : Collection :=
  match f.schema.truthy_table_name with
  | none => st
  | some n =>
    Collection.upsert st
      { id := n
        document := _create_searchable_text f.schema
        table_name := n
        description := f.schema.description.getD ""
        business_context := f.schema.business_context.getD ""
        schema_json := f.schema
        file_hash := f.file_hash }

/-! ## Supporting lemmas -/

set_option maxRecDepth 10000

lemma pySliceLast_eq_drop {α : Type} (n : Nat) (hn : 1 ≤ n) (xs : List α) :
    pySliceLast n xs = xs.drop (xs.length - n) := by
  simp only [pySliceLast, if_neg (by omega : ¬ n = 0)]

lemma run_appends_snoc (cfg : AgentConfig) (ts : List Turn) (t : Turn) :
    run_appends cfg (ts ++ [t]) = _add_to_history cfg (run_appends cfg ts) t.user t.assistant := by
  simp [run_appends, List.foldl_append]

lemma add_to_history_drop (cfg : AgentConfig) (hm : 1 ≤ cfg.max_history_length)
    (p : List Turn) (u a : String) :
    _add_to_history cfg (p.drop (p.length - cfg.max_history_length)) u a =
      (p ++ [(⟨u, a⟩ : Turn)]).drop ((p ++ [(⟨u, a⟩ : Turn)]).length - cfg.max_history_length) := by
  set m := cfg.max_history_length with hmdef
  unfold _add_to_history
  rw [← hmdef]
  by_cases hp : p.length < m
  · have h0 : p.length - m = 0 := by omega
    rw [h0, List.drop_zero]
    rw [if_neg (by simp only [List.length_append, List.length_cons, List.length_nil, gt_iff_lt]; omega)]
    have h1 : (p ++ [(⟨u, a⟩ : Turn)]).length - m = 0 := by
      simp only [List.length_append, List.length_cons, List.length_nil]; omega
    rw [h1, List.drop_zero]
  · have hpm : m ≤ p.length := by omega
    have hslen : (p.drop (p.length - m)).length = m := by
      rw [List.length_drop]; omega
    rw [if_pos (by simp only [List.length_append, List.length_cons, List.length_nil, hslen, gt_iff_lt]; omega)]
    rw [pySliceLast_eq_drop m hm]
    have hlen2 : (p.drop (p.length - m) ++ [(⟨u, a⟩ : Turn)]).length - m = 1 := by
      simp [hslen]
    rw [hlen2]
    rw [List.drop_append_of_le_length (by omega : 1 ≤ (p.drop (p.length - m)).length)]
    rw [List.drop_drop]
    have hgoal : (p ++ [(⟨u, a⟩ : Turn)]).length - m = p.length - m + 1 := by
      simp only [List.length_append, List.length_cons, List.length_nil]; omega
    rw [hgoal]
    rw [List.drop_append_of_le_length (by omega : p.length - m + 1 ≤ p.length)]

/-! ## Claim theorems -/

/-- C1: for every request whose schema retrieval returns an empty list,
`generate_query` returns exactly the string
"Error: No relevant tables found for this query.", performs no call to the
generation capability, and leaves the conversation history unchanged. -/
theorem generate_query_no_schema_short_circuit (cfg : AgentConfig)
    (llm_generate : String → String) (history : List Turn)
    (business_logic : String) (explain : Bool) :
    generate_query cfg llm_generate [] history business_logic explain =
      { response := "Error: No relevant tables found for this query."
        conversation_history := history
        llm_called := false
        prompt := none } := rfl

/-- C8 counterexample: the negation of the claim holds — the two source
definitions of `_prepare_history_for_prompt` are extensionally equal (they
are the same function; only their docstrings differ). -/
theorem prepare_history_defs_extensionally_equal :
    _prepare_history_for_prompt_v1 = _prepare_history_for_prompt_v2 := rfl

/-- C8 (amended): the source contains two textually duplicated definitions
of the history-projection summarization; both truncate responses over 200
characters, they agree on every stored history, and the effective method is
the second (later) definition. -/
theorem prepare_history_duplicate_defs_agree (cfg : AgentConfig) (history : List Turn) :
    _prepare_history_for_prompt_v1 cfg history = _prepare_history_for_prompt_v2 cfg history
    ∧ _prepare_history_for_prompt cfg history = _prepare_history_for_prompt_v2 cfg history :=
  ⟨rfl, rfl⟩

/-- C2 counterexample: (a) the summarized response of a 250-character
response does not start with "Generated SQL query: " (it starts with the
bracketed marker "[Generated SQL query: "), and (b) with `turnsToExpose = 0`
the projection returns the whole history, not the last 0 turns. -/
theorem history_projection_claim_false :
    ((_prepare_history_for_prompt ⟨5, true, 10, 3, true⟩ [⟨"q", longResponse⟩]).map
        (fun turn => List.isPrefixOf "Generated SQL query: ".data turn.assistant.data)) = [false]
    ∧ (_prepare_history_for_prompt ⟨5, true, 10, 0, true⟩ [⟨"q1", "r1"⟩, ⟨"q2", "r2"⟩]).length = 2 := by
  decide

/-- C2 (amended): for `turnsToExpose ≥ 1` and `summarize = true`, the
projection returns exactly the last `turnsToExpose` stored turns (all of
them when the history is shorter), with every turn whose response exceeds
200 characters replaced by the bracketed marker
"[Generated SQL query: " + first 100 characters + "...]" and its request
unchanged, every turn with a response of at most 200 characters passed
through unchanged, and the stored history itself untouched (a snapshot
after the call equals one taken before). -/
theorem history_projection_amended (top_k max_len n : Nat) (hn : 1 ≤ n)
    (hist : List Turn) :
    _prepare_history_for_prompt ⟨top_k, true, max_len, n, true⟩ hist =
      (hist.drop (hist.length - n)).map (fun turn =>
        if turn.assistant.length > 200 then
          { user := turn.user
            assistant := "[Generated SQL query: " ++ turn.assistant.take 100 ++ "...]" }
        else turn)
    ∧ (_prepare_history_for_prompt ⟨top_k, true, max_len, n, true⟩ hist).length
        = min n hist.length
    ∧ get_history hist = hist := by
  have hmain :
      _prepare_history_for_prompt ⟨top_k, true, max_len, n, true⟩ hist =
        (hist.drop (hist.length - n)).map (fun turn =>
          if turn.assistant.length > 200 then
            { user := turn.user
              assistant := "[Generated SQL query: " ++ turn.assistant.take 100 ++ "...]" }
          else turn) := by
    cases hist with
    | nil => simp [_prepare_history_for_prompt, _prepare_history_for_prompt_v2]
    | cons h t =>
      unfold _prepare_history_for_prompt _prepare_history_for_prompt_v2
      simp only [List.isEmpty_cons, Bool.false_eq_true, if_false,
        pySliceLast_eq_drop n hn, Bool.not_true]
  refine ⟨hmain, ?_, rfl⟩
  rw [hmain]
  simp [List.length_drop]
  omega

/-- C2 witness: the amended statement instantiated at `turnsToExpose = 3`
and a concrete one-turn history. -/
theorem history_projection_amended_witness :
    1 ≤ 3 ∧
    (_prepare_history_for_prompt ⟨5, true, 10, 3, true⟩ [⟨"q", "r"⟩] =
      (([⟨"q", "r"⟩] : List Turn).drop (([⟨"q", "r"⟩] : List Turn).length - 3)).map (fun turn =>
        if turn.assistant.length > 200 then
          { user := turn.user
            assistant := "[Generated SQL query: " ++ turn.assistant.take 100 ++ "...]" }
        else turn)
    ∧ (_prepare_history_for_prompt ⟨5, true, 10, 3, true⟩ [⟨"q", "r"⟩]).length
        = min 3 ([⟨"q", "r"⟩] : List Turn).length
    ∧ get_history [⟨"q", "r"⟩] = [⟨"q", "r"⟩]) :=
  ⟨by decide, history_projection_amended 5 10 3 (by decide) [⟨"q", "r"⟩]⟩

/-- C3 counterexample: with `maxStored = 0`, appending one turn leaves one
stored turn, not the `min(1, 0) = 0` turns the claim requires (the Python
trim slice `[-0:]` keeps the whole list). -/
theorem history_eviction_claim_false :
    run_appends ⟨5, true, 0, 3, true⟩ [⟨"u", "a"⟩] = [⟨"u", "a"⟩]
    ∧ ([⟨"u", "a"⟩] : List Turn) ≠ [] := by
  decide

/-- C3 (amended): for every `maxStored ≥ 1` and every sequence of appends,
the stored history after replaying the sequence is exactly the most recent
`min(number appended, maxStored)` turns, oldest first; in particular
appending 12 turns with `maxStored = 10` leaves the last 10 in order. -/
theorem history_eviction_amended (cfg : AgentConfig)
    (hm : 1 ≤ cfg.max_history_length) (turns : List Turn) :
    run_appends cfg turns = turns.drop (turns.length - cfg.max_history_length)
    ∧ (run_appends cfg turns).length = min turns.length cfg.max_history_length := by
  have hmain : run_appends cfg turns = turns.drop (turns.length - cfg.max_history_length) := by
    induction turns using List.reverseRecOn with
    | nil => simp [run_appends]
    | append_singleton ts t ih =>
      rw [run_appends_snoc, ih]
      exact add_to_history_drop cfg hm ts t.user t.assistant
  refine ⟨hmain, ?_⟩
  rw [hmain]
  simp [List.length_drop]
  omega

lemma contains_iff (l : List String) (a : String) : l.contains a = true ↔ a ∈ l := by
  simp [List.contains, List.elem_iff]

lemma find_map_update_self (st : Collection) (e : CollectionEntry)
    (h : st.any (fun x => x.id == e.id) = true) :
    (st.map (fun x => if x.id == e.id then e else x)).find? (fun x => x.id == e.id)
      = some e := by
  induction st with
  | nil => simp at h
  | cons x rest ih =>
    by_cases hx : (x.id == e.id) = true
    · rw [List.map_cons, if_pos hx, List.find?_cons_of_pos _ (by simp)]
    · have hr : rest.any (fun y => y.id == e.id) = true := by
        rw [List.any_cons] at h
        rcases Bool.or_eq_true_iff.mp h with h1 | h1
        · exact absurd h1 hx
        · exact h1
      rw [List.map_cons, if_neg hx,
        @List.find?_cons_of_neg _ (fun y => y.id == e.id) x
          (rest.map (fun x => if x.id == e.id then e else x)) hx]
      exact ih hr

lemma find_upsert_self (st : Collection) (e : CollectionEntry) :
    (Collection.upsert st e).find? (fun x => x.id == e.id) = some e := by
  unfold Collection.upsert
  by_cases h : st.any (fun x => x.id == e.id) = true
  · rw [if_pos h]
    exact find_map_update_self st e h
  · rw [if_neg h]
    have hfalse : st.any (fun y => y.id == e.id) = false := by
      cases hany : st.any (fun y => y.id == e.id) with
      | false => rfl
      | true => exact absurd hany h
    have hnone : st.find? (fun x => x.id == e.id) = none := by
      rw [List.find?_eq_none]
      intro x hx
      rw [List.any_eq_false] at hfalse
      simpa using hfalse x hx
    rw [List.find?_append, hnone]
    simp

lemma get_upsert (st : Collection) (e : CollectionEntry) :
    get_schema_by_name (Collection.upsert st e) e.id = some e.schema_json := by
  unfold get_schema_by_name
  rw [find_upsert_self]

/-- C3 witness: the amended statement at `maxStored = 10` and the concrete
twelve-turn sequence. -/
theorem history_eviction_amended_witness :
    1 ≤ (⟨5, true, 10, 3, true⟩ : AgentConfig).max_history_length ∧
    (run_appends ⟨5, true, 10, 3, true⟩ twelveTurns =
        twelveTurns.drop (twelveTurns.length - (⟨5, true, 10, 3, true⟩ : AgentConfig).max_history_length)
    ∧ (run_appends ⟨5, true, 10, 3, true⟩ twelveTurns).length
        = min twelveTurns.length (⟨5, true, 10, 3, true⟩ : AgentConfig).max_history_length) :=
  ⟨by decide, history_eviction_amended ⟨5, true, 10, 3, true⟩ (by decide) twelveTurns⟩


lemma find_map_update_ne (st : Collection) (e : CollectionEntry) (m : String)
    (h : ¬ e.id = m) :
    (st.map (fun x => if x.id == e.id then e else x)).find? (fun x => x.id == m)
      = st.find? (fun x => x.id == m) := by
  induction st with
  | nil => rfl
  | cons x rest ih =>
    rw [List.map_cons]
    by_cases hx : (x.id == e.id) = true
    · have hxid : x.id = e.id := eq_of_beq hx
      have hpe : ¬ (e.id == m) = true := by
        simp only [beq_iff_eq]
        exact h
      have hpx : ¬ (x.id == m) = true := by
        simp only [beq_iff_eq, hxid]
        exact h
      rw [if_pos hx,
        @List.find?_cons_of_neg _ (fun x => x.id == m) e
          (rest.map (fun x => if x.id == e.id then e else x)) hpe,
        @List.find?_cons_of_neg _ (fun x => x.id == m) x rest hpx]
      exact ih
    · rw [if_neg hx]
      by_cases hpx : (x.id == m) = true
      · rw [@List.find?_cons_of_pos _ (fun x => x.id == m) x
            (rest.map (fun x => if x.id == e.id then e else x)) hpx,
          @List.find?_cons_of_pos _ (fun x => x.id == m) x rest hpx]
      · rw [@List.find?_cons_of_neg _ (fun x => x.id == m) x
            (rest.map (fun x => if x.id == e.id then e else x)) hpx,
          @List.find?_cons_of_neg _ (fun x => x.id == m) x rest hpx]
        exact ih

lemma stored_file_hash_upsert_ne (st : Collection) (e : CollectionEntry) (m : String)
    (h : ¬ e.id = m) :
    stored_file_hash (Collection.upsert st e) m = stored_file_hash st m := by
  unfold stored_file_hash Collection.upsert
  by_cases hany : st.any (fun x => x.id == e.id) = true
  · rw [if_pos hany, find_map_update_ne st e m h]
  · rw [if_neg hany, List.find?_append]
    have hone : ([e] : Collection).find? (fun x => x.id == m) = none := by
      have hpe : ¬ (e.id == m) = true := by
        simp only [beq_iff_eq]
        exact h
      rw [@List.find?_cons_of_neg _ (fun x => x.id == m) e [] hpe]
      rfl
    rw [hone, Option.or_none]

lemma stored_file_hash_upsert_self (st : Collection) (e : CollectionEntry) :
    stored_file_hash (Collection.upsert st e) e.id = e.file_hash := by
  unfold stored_file_hash
  rw [find_upsert_self]

lemma ids_map_update (st : Collection) (e : CollectionEntry) :
    get_all_table_names (st.map (fun x => if x.id == e.id then e else x))
      = get_all_table_names st := by
  unfold get_all_table_names
  rw [List.map_map]
  refine List.map_congr_left ?_
  intro x _
  by_cases h : (x.id == e.id) = true
  · simp only [Function.comp_apply, if_pos h]
    exact (eq_of_beq h).symm
  · simp only [Function.comp_apply, if_neg h]

lemma ids_upsert_mem (st : Collection) (e : CollectionEntry) (m : String)
    (hm : m ∈ get_all_table_names st) :
    m ∈ get_all_table_names (Collection.upsert st e) := by
  unfold Collection.upsert
  by_cases hany : st.any (fun x => x.id == e.id) = true
  · rw [if_pos hany, ids_map_update]
    exact hm
  · rw [if_neg hany]
    unfold get_all_table_names at hm ⊢
    rw [List.map_append]
    exact List.mem_append_left _ hm

lemma ids_upsert_self (st : Collection) (e : CollectionEntry) :
    e.id ∈ get_all_table_names (Collection.upsert st e) := by
  unfold Collection.upsert
  by_cases hany : st.any (fun x => x.id == e.id) = true
  · rw [if_pos hany, ids_map_update]
    obtain ⟨x, hx, hbeq⟩ := List.any_eq_true.mp hany
    have : e.id = x.id := (eq_of_beq hbeq).symm
    rw [this]
    exact List.mem_map.mpr ⟨x, hx, rfl⟩
  · rw [if_neg hany]
    unfold get_all_table_names
    rw [List.map_append]
    exact List.mem_append_right _ (by simp)

lemma stored_file_hash_step_ne (existing : List String) (force : Bool)
    (c : SyncCounts) (st : Collection) (f : SourceFile) (m : String)
    (h : ∀ n, f.schema.truthy_table_name = some n → n ≠ m) :
    stored_file_hash (load_step existing force (c, st) f).2 m = stored_file_hash st m := by
  unfold load_step
  cases htn : f.schema.truthy_table_name with
  | none => rfl
  | some n =>
    have hnm : ¬ n = m := h n htn
    simp only
    by_cases hcond : (!force && !(!(existing.contains n))
        && (stored_file_hash st n == f.file_hash)) = true
    · rw [if_pos hcond]
    · rw [if_neg hcond]
      simp only [add_schema, htn]
      by_cases hnew : (!(existing.contains n)) = true
      · rw [if_pos hnew]
        exact stored_file_hash_upsert_ne st _ m hnm
      · rw [if_neg hnew]
        exact stored_file_hash_upsert_ne st _ m hnm

lemma ids_grow_step (existing : List String) (force : Bool)
    (c : SyncCounts) (st : Collection) (f : SourceFile) (m : String)
    (hm : m ∈ get_all_table_names st) :
    m ∈ get_all_table_names (load_step existing force (c, st) f).2 := by
  unfold load_step
  cases htn : f.schema.truthy_table_name with
  | none => exact hm
  | some n =>
    simp only
    by_cases hcond : (!force && !(!(existing.contains n))
        && (stored_file_hash st n == f.file_hash)) = true
    · rw [if_pos hcond]
      exact hm
    · rw [if_neg hcond]
      simp only [add_schema, htn]
      by_cases hnew : (!(existing.contains n)) = true
      · rw [if_pos hnew]
        exact ids_upsert_mem st _ m hm
      · rw [if_neg hnew]
        exact ids_upsert_mem st _ m hm

lemma load_step_classified (existing : List String) (force : Bool) (c : SyncCounts)
    (st : Collection) (f : SourceFile) :
    load_step existing force (c, st) f =
      match classOf existing st force f with
      | .isError => ({c with errors := c.errors + 1}, st)
      | .isSkipped => ({c with skipped := c.skipped + 1}, st)
      | .isNew => ({c with new := c.new + 1}, upsertEntry st f)
      | .isUpdated => ({c with updated := c.updated + 1}, upsertEntry st f) := by
  cases htn : f.schema.truthy_table_name with
  | none => simp [load_step, classOf, upsertEntry, htn]
  | some n =>
    cases hnew : existing.contains n with
    | false =>
      have hmem : n ∉ existing := by
        intro hm
        rw [(contains_iff existing n).mpr hm] at hnew
        cases hnew
      cases force with
      | false =>
        cases hb : stored_file_hash st n == f.file_hash with
        | false => simp [load_step, classOf, upsertEntry, add_schema, htn, hmem, hb]
        | true => simp [load_step, classOf, upsertEntry, add_schema, htn, hmem, hb]
      | true =>
        cases hb : stored_file_hash st n == f.file_hash with
        | false => simp [load_step, classOf, upsertEntry, add_schema, htn, hmem, hb]
        | true => simp [load_step, classOf, upsertEntry, add_schema, htn, hmem, hb]
    | true =>
      have hmem : n ∈ existing := (contains_iff existing n).mp hnew
      cases force with
      | false =>
        cases hb : stored_file_hash st n == f.file_hash with
        | false => simp [load_step, classOf, upsertEntry, add_schema, htn, hmem, hb]
        | true => simp [load_step, classOf, upsertEntry, add_schema, htn, hmem, hb]
      | true =>
        cases hb : stored_file_hash st n == f.file_hash with
        | false => simp [load_step, classOf, upsertEntry, add_schema, htn, hmem, hb]
        | true => simp [load_step, classOf, upsertEntry, add_schema, htn, hmem, hb]

lemma classOf_congr (existing : List String) (force : Bool) (st st0 : Collection)
    (f : SourceFile)
    (h : ∀ n, f.schema.truthy_table_name = some n →
        stored_file_hash st n = stored_file_hash st0 n) :
    classOf existing st force f = classOf existing st0 force f := by
  cases htn : f.schema.truthy_table_name with
  | none => simp [classOf, htn]
  | some n => simp [classOf, htn, h n htn]

lemma ids_grow_fold (existing : List String) (force : Bool) :
    ∀ (files : List SourceFile) (c : SyncCounts) (st : Collection) (m : String),
      m ∈ get_all_table_names st →
      m ∈ get_all_table_names ((files.foldl (load_step existing force) (c, st)).2) := by
  intro files
  induction files with
  | nil =>
    intro c st m hm
    exact hm
  | cons f rest ih =>
    intro c st m hm
    rw [List.foldl_cons]
    exact ih (load_step existing force (c, st) f).1 (load_step existing force (c, st) f).2 m
      (ids_grow_step existing force c st f m hm)

lemma hash_preserved_fold (existing : List String) (force : Bool) :
    ∀ (files : List SourceFile) (c : SyncCounts) (st : Collection) (m : String),
      (∀ f ∈ files, ∀ n, f.schema.truthy_table_name = some n → n ≠ m) →
      stored_file_hash ((files.foldl (load_step existing force) (c, st)).2) m
        = stored_file_hash st m := by
  intro files
  induction files with
  | nil =>
    intro c st m _
    rfl
  | cons f rest ih =>
    intro c st m h
    rw [List.foldl_cons]
    have hrest : ∀ g ∈ rest, ∀ n, g.schema.truthy_table_name = some n → n ≠ m :=
      fun g hg => h g (List.mem_cons_of_mem f hg)
    exact (ih (load_step existing force (c, st) f).1 (load_step existing force (c, st) f).2
        m hrest).trans
      (stored_file_hash_step_ne existing force c st f m (h f (List.mem_cons_self f rest)))

lemma counts_fold (existing : List String) (force : Bool) (st0 : Collection) :
    ∀ (files : List SourceFile) (c : SyncCounts) (st : Collection),
      (∀ f ∈ files, ∀ n, f.schema.truthy_table_name = some n →
          stored_file_hash st n = stored_file_hash st0 n) →
      ((files.filterMap (fun f => f.schema.truthy_table_name)).Nodup) →
      (files.foldl (load_step existing force) (c, st)).1 =
        { new := c.new + files.countP (fun f => classOf existing st0 force f == SyncClass.isNew)
          updated := c.updated
            + files.countP (fun f => classOf existing st0 force f == SyncClass.isUpdated)
          skipped := c.skipped
            + files.countP (fun f => classOf existing st0 force f == SyncClass.isSkipped)
          errors := c.errors
            + files.countP (fun f => classOf existing st0 force f == SyncClass.isError) } := by
  intro files
  induction files with
  | nil =>
    intro c st _ _
    simp
  | cons f rest ih =>
    intro c st hst hnodup
    have hcongr : classOf existing st force f = classOf existing st0 force f :=
      classOf_congr existing force st st0 f (fun n hn => hst f (List.mem_cons_self f rest) n hn)
    have hrest : ∀ g ∈ rest, ∀ n, g.schema.truthy_table_name = some n →
        stored_file_hash st n = stored_file_hash st0 n :=
      fun g hg => hst g (List.mem_cons_of_mem f hg)
    cases htn : f.schema.truthy_table_name with
    | none =>
      have hcl : classOf existing st force f = SyncClass.isError := by simp [classOf, htn]
      have hcl0 : classOf existing st0 force f = SyncClass.isError := hcongr.symm.trans hcl
      have hnodup2 : (rest.filterMap (fun f => f.schema.truthy_table_name)).Nodup := by
        rwa [List.filterMap_cons, htn] at hnodup
      simp only [List.foldl_cons, load_step_classified, hcl]
      rw [ih { c with errors := c.errors + 1 } st hrest hnodup2]
      simp [List.countP_cons, hcl0, beq_iff_eq]
      omega
    | some n =>
      rw [List.filterMap_cons, htn] at hnodup
      have hnotin : n ∉ rest.filterMap (fun f => f.schema.truthy_table_name) :=
        (List.nodup_cons.mp hnodup).1
      have hnodup2 : (rest.filterMap (fun f => f.schema.truthy_table_name)).Nodup :=
        (List.nodup_cons.mp hnodup).2
      have hstable : ∀ g ∈ rest, ∀ m, g.schema.truthy_table_name = some m →
          stored_file_hash (upsertEntry st f) m = stored_file_hash st0 m := by
        intro g hg m hgm
        have hmn : ¬ n = m :=
          fun heq => hnotin (heq ▸ List.mem_filterMap.mpr ⟨g, hg, hgm⟩)
        have h1 : stored_file_hash (upsertEntry st f) m = stored_file_hash st m := by
          simp only [upsertEntry, htn]
          exact stored_file_hash_upsert_ne st _ m hmn
        rw [h1]
        exact hrest g hg m hgm
      cases hcl : classOf existing st force f with
      | isError =>
        exfalso
        simp only [classOf, htn] at hcl
        split at hcl <;> (try split at hcl) <;> simp_all
      | isSkipped =>
        have hcl0 : classOf existing st0 force f = SyncClass.isSkipped := hcongr.symm.trans hcl
        simp only [List.foldl_cons, load_step_classified, hcl]
        rw [ih { c with skipped := c.skipped + 1 } st hrest hnodup2]
        simp [List.countP_cons, hcl0, beq_iff_eq]
        omega
      | isNew =>
        have hcl0 : classOf existing st0 force f = SyncClass.isNew := hcongr.symm.trans hcl
        simp only [List.foldl_cons, load_step_classified, hcl]
        rw [ih { c with new := c.new + 1 } (upsertEntry st f) hstable hnodup2]
        simp [List.countP_cons, hcl0, beq_iff_eq]
        omega
      | isUpdated =>
        have hcl0 : classOf existing st0 force f = SyncClass.isUpdated := hcongr.symm.trans hcl
        simp only [List.foldl_cons, load_step_classified, hcl]
        rw [ih { c with updated := c.updated + 1 } (upsertEntry st f) hstable hnodup2]
        simp [List.countP_cons, hcl0, beq_iff_eq]
        omega

lemma sync_hash_fold (existing : List String) (force : Bool) :
    ∀ (files : List SourceFile) (c : SyncCounts) (st : Collection),
      (∀ x ∈ existing, x ∈ get_all_table_names st) →
      ((files.filterMap (fun f => f.schema.truthy_table_name)).Nodup) →
      ∀ f ∈ files, ∀ n, f.schema.truthy_table_name = some n →
        stored_file_hash ((files.foldl (load_step existing force) (c, st)).2) n = f.file_hash
        ∧ n ∈ get_all_table_names ((files.foldl (load_step existing force) (c, st)).2) := by
  intro files
  induction files with
  | nil =>
    intro c st _ _ f hf
    simp at hf
  | cons g rest ih =>
    intro c st hex hnodup f hf n htn
    rcases List.mem_cons.mp hf with rfl | hfr
    · rw [List.filterMap_cons, htn] at hnodup
      have hnotin : n ∉ rest.filterMap (fun f => f.schema.truthy_table_name) :=
        (List.nodup_cons.mp hnodup).1
      have hrestne : ∀ g2 ∈ rest, ∀ m, g2.schema.truthy_table_name = some m → m ≠ n :=
        fun g2 hg2 m hm heq => hnotin (heq ▸ List.mem_filterMap.mpr ⟨g2, hg2, hm⟩)
      cases hclass : classOf existing st force f with
      | isError =>
        exfalso
        simp only [classOf, htn] at hclass
        split at hclass <;> (try split at hclass) <;> simp_all
      | isSkipped =>
        have hfacts : existing.contains n = true ∧ stored_file_hash st n = f.file_hash := by
          simp only [classOf, htn] at hclass
          by_cases h1 : (!(existing.contains n)) = true
          · rw [if_pos h1] at hclass
            exact absurd hclass (by simp)
          · by_cases h2 : (!force && (stored_file_hash st n == f.file_hash)) = true
            · have h2b : (!force) = true ∧ (stored_file_hash st n == f.file_hash) = true := by
                rw [Bool.and_eq_true] at h2
                exact h2
              refine ⟨?_, eq_of_beq h2b.2⟩
              cases hcc : existing.contains n with
              | false => rw [hcc] at h1; simp at h1
              | true => rfl
            · rw [if_neg h1, if_neg h2] at hclass
              exact absurd hclass (by simp)
        obtain ⟨hc, hh⟩ := hfacts
        simp only [List.foldl_cons, load_step_classified, hclass]
        constructor
        · rw [hash_preserved_fold existing force rest _ st n hrestne]
          exact hh
        · exact ids_grow_fold existing force rest _ st n
            (hex n ((contains_iff existing n).mp hc))
      | isNew =>
        simp only [List.foldl_cons, load_step_classified, hclass]
        constructor
        · rw [hash_preserved_fold existing force rest _ (upsertEntry st f) n hrestne]
          simp only [upsertEntry, htn]
          exact stored_file_hash_upsert_self st _
        · refine ids_grow_fold existing force rest _ (upsertEntry st f) n ?_
          simp only [upsertEntry, htn]
          exact ids_upsert_self st _
      | isUpdated =>
        simp only [List.foldl_cons, load_step_classified, hclass]
        constructor
        · rw [hash_preserved_fold existing force rest _ (upsertEntry st f) n hrestne]
          simp only [upsertEntry, htn]
          exact stored_file_hash_upsert_self st _
        · refine ids_grow_fold existing force rest _ (upsertEntry st f) n ?_
          simp only [upsertEntry, htn]
          exact ids_upsert_self st _
    · rw [List.foldl_cons]
      have hex2 : ∀ x ∈ existing,
          x ∈ get_all_table_names ((load_step existing force (c, st) g).2) :=
        fun x hx => ids_grow_step existing force c st g x (hex x hx)
      have hnodup2 : (rest.filterMap (fun f => f.schema.truthy_table_name)).Nodup := by
        cases htg : g.schema.truthy_table_name with
        | none => rwa [List.filterMap_cons, htg] at hnodup
        | some mg =>
          rw [List.filterMap_cons, htg] at hnodup
          exact (List.nodup_cons.mp hnodup).2
      exact ih (load_step existing force (c, st) g).1 (load_step existing force (c, st) g).2
        hex2 hnodup2 f hfr n htn

/-- C4 counterexample: two source files with the same `table_name` but
different content hashes defeat the claim: after a first sync ingests both
(each counted independently against the start-of-sync snapshot), a second
sync over the identical source list yields `updated = 2`, `skipped = 0`,
not `updated = 0` and `skipped = count = 2`. -/
theorem sync_counts_claim_false :
    second_sync_counts [dupFileOne, dupFileTwo] = some ⟨0, 2, 0, 0⟩
    ∧ some (⟨0, 2, 0, 0⟩ : SyncCounts) ≠ some (⟨0, 0, 2, 0⟩ : SyncCounts) := by
  decide

/-- C4 (amended): sync classifies every supplied source item relative to
the identifier snapshot taken at the start of the batch and to the stored
hashes: error on a missing/empty table_name (counted, never aborting), new
when the identifier is outside the snapshot, skipped when unforced with a
matching stored hash, updated otherwise; and for a nonempty batch whose
(truthy) table names are pairwise distinct and all present, a second
unforced sync over identical content yields `updated = 0`,
`skipped = count`, while a forced sync over unchanged content yields
`updated = count`, `skipped = 0`. -/
theorem sync_classification (st : Collection) (force_reload : Bool)
    (files : List SourceFile) (hne : files ≠ [])
    (hnodup : (files.filterMap (fun f => f.schema.truthy_table_name)).Nodup) :
    ∃ st1,
      load_schemas_from_directory st force_reload files =
        .ok ({ new := files.countP
                 (fun f => classOf (get_all_table_names st) st force_reload f
                   == SyncClass.isNew)
               updated := files.countP
                 (fun f => classOf (get_all_table_names st) st force_reload f
                   == SyncClass.isUpdated)
               skipped := files.countP
                 (fun f => classOf (get_all_table_names st) st force_reload f
                   == SyncClass.isSkipped)
               errors := files.countP
                 (fun f => classOf (get_all_table_names st) st force_reload f
                   == SyncClass.isError) },
             st1)
      ∧ ((∀ f ∈ files, f.schema.truthy_table_name ≠ none) →
           (∃ st2, load_schemas_from_directory st1 false files =
               .ok ({ new := 0, updated := 0, skipped := files.length, errors := 0 }, st2))
           ∧ (∃ st3, load_schemas_from_directory st1 true files =
               .ok ({ new := 0, updated := files.length, skipped := 0, errors := 0 }, st3))) := by
  have hempty : files.isEmpty = false := by
    cases files with
    | nil => exact absurd rfl hne
    | cons a l => rfl
  refine ⟨(files.foldl (load_step (get_all_table_names st) force_reload)
      (⟨0, 0, 0, 0⟩, st)).2, ?_, ?_⟩
  · unfold load_schemas_from_directory
    rw [if_neg (by simp [hempty])]
    have hc := counts_fold (get_all_table_names st) force_reload st files ⟨0, 0, 0, 0⟩ st
      (fun f _ n _ => rfl) hnodup
    simp only [Nat.zero_add] at hc
    rw [← hc]
  · intro htruthy
    set st1 := (files.foldl (load_step (get_all_table_names st) force_reload)
      (⟨0, 0, 0, 0⟩, st)).2 with hst1def
    have hfold : ∀ f ∈ files, ∀ n, f.schema.truthy_table_name = some n →
        stored_file_hash st1 n = f.file_hash ∧ n ∈ get_all_table_names st1 :=
      sync_hash_fold (get_all_table_names st) force_reload files ⟨0, 0, 0, 0⟩ st
        (fun x hx => hx) hnodup
    constructor
    · refine ⟨(files.foldl (load_step (get_all_table_names st1) false)
        (⟨0, 0, 0, 0⟩, st1)).2, ?_⟩
      unfold load_schemas_from_directory
      rw [if_neg (by simp [hempty])]
      have hskip : ∀ f ∈ files,
          classOf (get_all_table_names st1) st1 false f = SyncClass.isSkipped := by
        intro f hf
        obtain ⟨n, htn⟩ := Option.ne_none_iff_exists'.mp (htruthy f hf)
        obtain ⟨hhash, hmem⟩ := hfold f hf n htn
        simp [classOf, htn, hmem, hhash]
      have hc := counts_fold (get_all_table_names st1) false st1 files ⟨0, 0, 0, 0⟩ st1
        (fun f _ n _ => rfl) hnodup
      have h1 : (files.foldl (load_step (get_all_table_names st1) false)
          (⟨0, 0, 0, 0⟩, st1)).1
          = ({ new := 0, updated := 0, skipped := files.length, errors := 0 } : SyncCounts) := by
        rw [hc]
        have cN : files.countP (fun f => classOf (get_all_table_names st1) st1 false f
            == SyncClass.isNew) = 0 :=
          List.countP_eq_zero.mpr (fun f hf => by simp [hskip f hf])
        have cU : files.countP (fun f => classOf (get_all_table_names st1) st1 false f
            == SyncClass.isUpdated) = 0 :=
          List.countP_eq_zero.mpr (fun f hf => by simp [hskip f hf])
        have cE : files.countP (fun f => classOf (get_all_table_names st1) st1 false f
            == SyncClass.isError) = 0 :=
          List.countP_eq_zero.mpr (fun f hf => by simp [hskip f hf])
        have cS : files.countP (fun f => classOf (get_all_table_names st1) st1 false f
            == SyncClass.isSkipped) = files.length :=
          List.countP_eq_length.mpr (fun f hf => by simp [hskip f hf])
        simp [cN, cU, cE, cS]
      exact congrArg Except.ok (Prod.ext h1 rfl)
    · refine ⟨(files.foldl (load_step (get_all_table_names st1) true)
        (⟨0, 0, 0, 0⟩, st1)).2, ?_⟩
      unfold load_schemas_from_directory
      rw [if_neg (by simp [hempty])]
      have hupd : ∀ f ∈ files,
          classOf (get_all_table_names st1) st1 true f = SyncClass.isUpdated := by
        intro f hf
        obtain ⟨n, htn⟩ := Option.ne_none_iff_exists'.mp (htruthy f hf)
        obtain ⟨hhash, hmem⟩ := hfold f hf n htn
        simp [classOf, htn, hmem, hhash]
      have hc := counts_fold (get_all_table_names st1) true st1 files ⟨0, 0, 0, 0⟩ st1
        (fun f _ n _ => rfl) hnodup
      have h1 : (files.foldl (load_step (get_all_table_names st1) true)
          (⟨0, 0, 0, 0⟩, st1)).1
          = ({ new := 0, updated := files.length, skipped := 0, errors := 0 } : SyncCounts) := by
        rw [hc]
        have cN : files.countP (fun f => classOf (get_all_table_names st1) st1 true f
            == SyncClass.isNew) = 0 :=
          List.countP_eq_zero.mpr (fun f hf => by simp [hupd f hf])
        have cS : files.countP (fun f => classOf (get_all_table_names st1) st1 true f
            == SyncClass.isSkipped) = 0 :=
          List.countP_eq_zero.mpr (fun f hf => by simp [hupd f hf])
        have cE : files.countP (fun f => classOf (get_all_table_names st1) st1 true f
            == SyncClass.isError) = 0 :=
          List.countP_eq_zero.mpr (fun f hf => by simp [hupd f hf])
        have cU : files.countP (fun f => classOf (get_all_table_names st1) st1 true f
            == SyncClass.isUpdated) = files.length :=
          List.countP_eq_length.mpr (fun f hf => by simp [hupd f hf])
        simp [cN, cS, cE, cU]
      exact congrArg Except.ok (Prod.ext h1 rfl)

/-- C4 witness: the amended statement at the concrete three-file batch
`{A, B, C}` synced into an empty store. -/
theorem sync_classification_witness :
    abcFiles ≠ [] ∧
    (abcFiles.filterMap (fun f => f.schema.truthy_table_name)).Nodup ∧
    (∃ st1,
      load_schemas_from_directory ([] : Collection) false abcFiles =
        .ok ({ new := abcFiles.countP
                 (fun f => classOf (get_all_table_names ([] : Collection)) [] false f
                   == SyncClass.isNew)
               updated := abcFiles.countP
                 (fun f => classOf (get_all_table_names ([] : Collection)) [] false f
                   == SyncClass.isUpdated)
               skipped := abcFiles.countP
                 (fun f => classOf (get_all_table_names ([] : Collection)) [] false f
                   == SyncClass.isSkipped)
               errors := abcFiles.countP
                 (fun f => classOf (get_all_table_names ([] : Collection)) [] false f
                   == SyncClass.isError) },
             st1)
      ∧ ((∀ f ∈ abcFiles, f.schema.truthy_table_name ≠ none) →
           (∃ st2, load_schemas_from_directory st1 false abcFiles =
               .ok ({ new := 0, updated := 0, skipped := abcFiles.length, errors := 0 }, st2))
           ∧ (∃ st3, load_schemas_from_directory st1 true abcFiles =
               .ok ({ new := 0, updated := abcFiles.length, skipped := 0, errors := 0 }, st3)))) :=
  ⟨by decide, by decide, sync_classification [] false abcFiles (by decide) (by decide)⟩

/-- C5: retrieval returns at most `min(topK, size)` documents, never raises
when `topK` exceeds the store size (the requested count is clamped before it
reaches the vector store), and returns the empty sequence on an empty
store. -/
theorem retrieve_cap (rank : String → Collection → List CollectionEntry)
    (st : Collection) (query_text : String) (top_k : Nat)
    (hrank : (rank query_text st).Perm st) :
    ∃ res, retrieve_relevant_schemas rank st query_text top_k = .ok res
      ∧ res.length ≤ top_k ∧ res.length ≤ st.length
      ∧ (st = [] → res = []) := by
  have hlen : (rank query_text st).length = st.length := hrank.length_eq
  refine ⟨((rank query_text st).take (min top_k st.length)).map (fun e => e.schema_json),
    ?_, ?_, ?_, ?_⟩
  · unfold retrieve_relevant_schemas chroma_query
    rw [if_neg (by rw [hlen]; omega)]
  · simp only [List.length_map, List.length_take, hlen]
    omega
  · simp only [List.length_map, List.length_take, hlen]
    omega
  · intro h
    subst h
    have hr : rank query_text [] = [] := hrank.eq_nil
    simp [hr]

/-- C5 witness: the clamping statement at `topK = 100` over the concrete
three-document store, with the identity ranking. -/
theorem retrieve_cap_witness :
    ((fun (_ : String) (c : Collection) => c) "any query" abcStore).Perm abcStore ∧
    (∃ res, retrieve_relevant_schemas (fun (_ : String) (c : Collection) => c)
          abcStore "any query" 100 = .ok res
      ∧ res.length ≤ 100 ∧ res.length ≤ abcStore.length
      ∧ (abcStore = [] → res = [])) :=
  ⟨by decide, retrieve_cap (fun (_ : String) (c : Collection) => c) abcStore "any query" 100
    (by decide)⟩

/-- C6: the prompt assembler is a pure function producing, in fixed order,
the system instructions, the schema context exactly as supplied, the
previous-conversation block exactly when a non-empty history is given
(numbered request/response pairs in order), the current request, the task
instructions, the explanation block exactly when requested, and the
output-format directive matching the explain flag; concretely, the prompt
generated for "get all active customers" over the `customers` document
contains "customers", "active" and the non-explain directive, and the
trimmed generation output is appended to history with the request text. -/
theorem create_sql_prompt_structure (business_logic schema_context : String)
    (conversation_history : Option (List Turn)) (t : Turn) (ts : List Turn) :
    create_sql_prompt business_logic schema_context false conversation_history =
      SYSTEM_PROMPT ++ "\n\n## Database Schema (Relevant Tables Only):\n" ++ schema_context
        ++ "\n" ++ render_history_context conversation_history
        ++ "\n## Business Logic:\n" ++ business_logic
        ++ "\n\n" ++ TASK_INSTRUCTIONS ++ "\n" ++ ""
        ++ "\n\n## Output Format:\n" ++ OUTPUT_FORMAT_NO_EXPLAIN ++ "\n\nSQL Query:"
    ∧ create_sql_prompt business_logic schema_context true conversation_history =
      SYSTEM_PROMPT ++ "\n\n## Database Schema (Relevant Tables Only):\n" ++ schema_context
        ++ "\n" ++ render_history_context conversation_history
        ++ "\n## Business Logic:\n" ++ business_logic
        ++ "\n\n" ++ TASK_INSTRUCTIONS ++ "\n" ++ EXPLANATION_INSTRUCTIONS
        ++ "\n\n## Output Format:\n" ++ OUTPUT_FORMAT_EXPLAIN ++ "\n\nSQL Query:"
    ∧ render_history_context none = ""
    ∧ render_history_context (some []) = ""
    ∧ render_history_context (some (t :: ts)) =
        "\n## Previous Conversation:\n"
          ++ String.join (((t :: ts).enumFrom 1).map (fun p =>
               "\nTurn " ++ toString p.1 ++ ":\nUser: " ++ p.2.user
                 ++ "\nAssistant: " ++ p.2.assistant ++ "\n"))
          ++ "\n## Current Request:\n"
    ∧ strContains ((generate_query ⟨5, true, 10, 3, true⟩
          (fun _ => "  SELECT id FROM customers WHERE active = TRUE\n")
          [custSchema] [] "get all active customers" false).prompt.getD "") "customers" = true
    ∧ strContains ((generate_query ⟨5, true, 10, 3, true⟩
          (fun _ => "  SELECT id FROM customers WHERE active = TRUE\n")
          [custSchema] [] "get all active customers" false).prompt.getD "") "active" = true
    ∧ strContains ((generate_query ⟨5, true, 10, 3, true⟩
          (fun _ => "  SELECT id FROM customers WHERE active = TRUE\n")
          [custSchema] [] "get all active customers" false).prompt.getD "")
          OUTPUT_FORMAT_NO_EXPLAIN = true
    ∧ (generate_query ⟨5, true, 10, 3, true⟩
          (fun _ => "  SELECT id FROM customers WHERE active = TRUE\n")
          [custSchema] [] "get all active customers" false).conversation_history =
        [⟨"get all active customers", "SELECT id FROM customers WHERE active = TRUE"⟩] :=
  ⟨rfl, rfl, rfl, rfl, rfl, by decide, by decide, by decide, by decide⟩

/-- C7 counterexample: a column whose `constraints` is the list
["not null", "unique"] renders differently in dict form (raw Python repr of
the list) and in list form (joined display string), so the two column forms
do not normalize to the same line format. -/
theorem constraints_normalization_claim_false :
    _format_schemas [conDictSchema] ≠ _format_schemas [conListSchema]
    ∧ _format_schemas [conDictSchema]
        = "\n### Table: t\n\nColumns:\n  - c (TEXT) [[\x27not null\x27, \x27unique\x27]]"
    ∧ _format_schemas [conListSchema]
        = "\n### Table: t\n\nColumns:\n  - c (TEXT) [not null, unique]" := by
  decide

/-- C7 (amended): the renderer joins a list-valued `constraints` into one
", "-separated display string only for list-form columns; dict-form columns
interpolate the raw value, so only a string-valued (or absent) `constraints`
renders identically in the two column forms, and a list-valued one renders
as its Python repr in dict form; string-form relationships and struct-form
relationships carrying a `description` normalize to the same line format. -/
theorem constraints_normalization_amended
    (nm ty con de : Option String) (colName item : String) (items : List String) :
    format_dict_col_line colName ⟨nm, ty, con.map ConstraintsVal.str, de⟩
      = format_list_col_line ⟨some colName, ty, con.map ConstraintsVal.str, de⟩
    ∧ format_list_col_line ⟨some colName, ty, some (.list (item :: items)), de⟩
      = (let withCon := "  - " ++ colName ++ " (" ++ ty.getD "UNKNOWN" ++ ")" ++ " ["
             ++ String.intercalate ", " (item :: items) ++ "]"
         if pyTruthyStr de then withCon ++ " - " ++ de.getD "" else withCon)
    ∧ format_dict_col_line colName ⟨nm, ty, some (.list (item :: items)), de⟩
      = (let withCon := "  - " ++ colName ++ " (" ++ ty.getD "UNKNOWN" ++ ")" ++ " ["
             ++ pyReprStrList (item :: items) ++ "]"
         if pyTruthyStr de then withCon ++ " - " ++ de.getD "" else withCon)
    ∧ format_rel_line (.str item) = "  - " ++ item
    ∧ format_rel_line (.dict ⟨nm, ty, con, some item⟩) = "  - " ++ item := by
  refine ⟨?_, ?_, ?_, rfl, rfl⟩
  · cases con with
    | none => rfl
    | some s => rfl
  · rfl
  · rfl

/-- C9: pruning removes exactly the stored documents whose identifiers are
absent from the current identifier set, leaves the others unchanged (in
order), and returns the number removed. -/
theorem remove_deleted_schemas_spec (st : Collection) (stems : List String)
    (hnodup : (get_all_table_names st).Nodup) :
    (remove_deleted_schemas st stems).1 = st.filter (fun e => stems.contains e.id)
    ∧ (remove_deleted_schemas st stems).2
        = (st.filter (fun e => !(stems.contains e.id))).length := by
  constructor
  · unfold remove_deleted_schemas get_all_table_names
    refine List.filter_congr ?_
    intro e he
    cases hcs : stems.contains e.id with
    | false =>
      have hmem : e.id ∈ ((st.map (fun x => x.id)).filter
          (fun t => !(stems.contains t))).dedup := by
        rw [List.mem_dedup, List.mem_filter]
        refine ⟨List.mem_map.mpr ⟨e, he, rfl⟩, ?_⟩
        show (!stems.contains e.id) = true
        rw [hcs]
        rfl
      rw [(contains_iff _ _).mpr hmem]
      rfl
    | true =>
      have hnotmem : e.id ∉ ((st.map (fun x => x.id)).filter
          (fun t => !(stems.contains t))).dedup := by
        rw [List.mem_dedup, List.mem_filter]
        rintro ⟨-, hpred⟩
        rw [hcs] at hpred
        simp at hpred
      have hfalse : (((st.map (fun x => x.id)).filter
          (fun t => !(stems.contains t))).dedup).contains e.id = false := by
        cases hc2 : (((st.map (fun x => x.id)).filter
            (fun t => !(stems.contains t))).dedup).contains e.id with
        | false => rfl
        | true => exact absurd ((contains_iff _ _).mp hc2) hnotmem
      rw [hfalse]
      rfl
  · simp only [remove_deleted_schemas, get_all_table_names]
    have hnd : ((st.map (fun x => x.id)).filter (fun t => !(stems.contains t))).Nodup :=
      hnodup.filter _
    rw [List.Nodup.dedup hnd, List.filter_map, List.length_map]
    rfl

/-- C9 witness: the pruning statement over the store holding `{A, B, C}`
with current identifier set `{A, B}`. -/
theorem remove_deleted_schemas_spec_witness :
    (get_all_table_names abcStore).Nodup ∧
    ((remove_deleted_schemas abcStore ["A", "B"]).1
        = abcStore.filter (fun e => (["A", "B"] : List String).contains e.id)
    ∧ (remove_deleted_schemas abcStore ["A", "B"]).2
        = (abcStore.filter (fun e => !((["A", "B"] : List String).contains e.id))).length) :=
  ⟨by decide, remove_deleted_schemas_spec abcStore ["A", "B"] (by decide)⟩

/-- C10: for every schema document with a (truthy) `table_name`, adding it
and then looking it up by that name returns a document equal to the one
added — the whole schema value survives the `schema_json` metadata string,
including the fields that never reach the searchable text. -/
theorem add_then_get_roundtrip (st : Collection) (schema : Schema)
    (file_hash : Option String) (name : String)
    (hname : schema.truthy_table_name = some name) :
    ∃ st2, add_schema st schema file_hash = .ok st2
      ∧ get_schema_by_name st2 name = some schema := by
  refine ⟨Collection.upsert st
      { id := name
        document := _create_searchable_text schema
        table_name := name
        description := schema.description.getD ""
        business_context := schema.business_context.getD ""
        schema_json := schema
        file_hash := file_hash.getD "" }, ?_, ?_⟩
  · unfold add_schema
    rw [hname]
  · exact get_upsert st _

/-- C10 witness: the round trip at a schema rich in fields that are absent
from the searchable text (constraints, relationships, business context). -/
theorem add_then_get_roundtrip_witness :
    richSchema.truthy_table_name = some "orders" ∧
    (∃ st2, add_schema ([] : Collection) richSchema (some "hashOrders") = .ok st2
      ∧ get_schema_by_name st2 "orders" = some richSchema) :=
  ⟨rfl, add_then_get_roundtrip [] richSchema (some "hashOrders") "orders" rfl⟩

end SqlAgent
